import Mathlib

/-!
Shallow embedding of the cloudysky message-board backend
(`src/app/models.py`, `src/cloudysky/views.py`, `src/cloudysky/urls.py`).

The Django ORM state is modelled as an explicit `DB` record of lists;
`objects.get` / `objects.filter` become `List.find?` / `List.filter`,
`objects.get_or_create` becomes an explicit lookup-or-append, and
`objects.create` appends a record built from the model's field defaults,
drawing fresh ids from per-table counters (Django's autoincrement pks).
Foreign keys to immutable rows (`UserType`, the auth user inside a
profile, the author profile inside a post/comment) are embedded by value:
no exposed view ever mutates those rows after creation, so the snapshot
agrees with the Django FK dereference.  Foreign keys compared or rewritten
by the views (`Comment.post`, `Post.suppressed_reason`) are kept as keys
(post id, reason code).  Django's `==` on model instances compares primary
keys, so profile comparisons are embedded as `.id` equality.
`timezone.now()` is the `now` field of the `DB`.  Each view function takes
the authenticated principal as an `AuthUser` argument: the
`login_required_json` decorator turns an unauthenticated request into a
401 response without touching the database, so only authenticated requests
are modelled as state transitions.
-/

/-- Embeds `app.models.UserType`: role record with a unique `name` and a
`can_moderate` flag defaulting to `False`. -/
structure UserType where
  name : String
  can_moderate : Bool
deriving Repr, DecidableEq

/-- The Django `auth.User` principal: the fields the views read. -/
structure AuthUser where
  id : Nat
  username : String
  is_staff : Bool
deriving Repr, DecidableEq

/-- Embeds `app.models.User`: the profile row.  `user` and `user_type` are FK
snapshots (both rows are immutable once created). -/
structure Profile where
  id : Nat
  user : AuthUser
  user_type : UserType
deriving Repr, DecidableEq

/-- Embeds `app.models.SuppressionReason`: catalog entry keyed by the unique
`suppressed_code`. -/
structure SuppressionReason where
  suppressed_code : String
  description : String
deriving Repr, DecidableEq

/-- Embeds `app.models.Post`.  `suppressed_reason` holds the reason's unique code;
`suppressed_by` holds the suppressing profile's pk. -/
structure Post where
  id : Nat
  author : Profile
  title : String
  content : String
  date : Nat
  is_suppressed : Bool := false
  suppressed_reason : Option String := none
  suppressed_datetime : Option Nat := none
  suppressed_by : Option Nat := none
deriving Repr, DecidableEq

/-- Embeds `app.models.Comment`.  `postId` is the parent post's pk. -/
structure Comment where
  id : Nat
  postId : Nat
  author : Profile
  content : String
  date : Nat
  is_suppressed : Bool := false
  suppressed_reason : Option String := none
  suppressed_datetime : Option Nat := none
  suppressed_by : Option Nat := none
deriving Repr, DecidableEq

/-- The persistent store plus the request clock. -/
structure DB where
  authUsers : List AuthUser
  userTypes : List UserType
  profiles : List Profile
  posts : List Post
  comments : List Comment
  reasons : List SuppressionReason
  nextAuthId : Nat
  nextProfileId : Nat
  nextPostId : Nat
  nextCommentId : Nat
  now : Nat
deriving Repr, DecidableEq

/-- The shape `can_view` reads from its duck-typed `obj` argument: both
`Post` and `Comment` expose `is_suppressed` and `author`. -/
structure ContentView where
  is_suppressed : Bool
  author : Profile
deriving Repr, DecidableEq

def Post.asContent (p : Post) : ContentView := ⟨p.is_suppressed, p.author⟩

def Comment.asContent (c : Comment) : ContentView := ⟨c.is_suppressed, c.author⟩

/-- Embeds `views.can_view(obj, user_profile)`: pure visibility predicate. -/
def can_view (obj : ContentView) (user_profile : Profile) : Bool :=
  if !obj.is_suppressed then true
  else if user_profile.user_type.can_moderate then true
  else if obj.author.id == user_profile.id then true
  else false

/-- Embeds `UserType.objects.get_or_create(name=name, defaults={"can_moderate": d})`:
returns the existing row keyed by `name`, or appends a fresh one built from
the defaults. -/
def getOrCreateUserType (types : List UserType) (name : String) (d : Bool) :
    UserType × List UserType :=
  match types.find? (fun t => t.name == name) with
  | some t => (t, types)
  | none => (⟨name, d⟩, types ++ [⟨name, d⟩])

/-- Embeds `SuppressionReason.objects.get_or_create(suppressed_code=code)`: the
row created on a miss carries the field defaults (empty description). -/
def getOrCreateReason (reasons : List SuppressionReason) (code : String) :
    SuppressionReason × List SuppressionReason :=
  match reasons.find? (fun r => r.suppressed_code == code) with
  | some r => (r, reasons)
  | none => (⟨code, ""⟩, reasons ++ [⟨code, ""⟩])

/-- Embeds `User.objects.get(user=request.user)` as a partial lookup. -/
def findProfile (db : DB) (user : AuthUser) : Option Profile :=
  db.profiles.find? (fun pr => pr.user.id == user.id)

/-- Embeds `Post.objects.get(id=post_id)` as a partial lookup. -/
def findPost (db : DB) (pid : Nat) : Option Post :=
  db.posts.find? (fun p => p.id == pid)

/-- Embeds `Comment.objects.get(id=comment_id)` as a partial lookup. -/
def findComment (db : DB) (cid : Nat) : Option Comment :=
  db.comments.find? (fun c => c.id == cid)

/-- Python truthiness of an optional request parameter: `None` and the
empty string are falsy (the views gate on `if not title or not content`). -/
def blankParam : Option String → Bool
  | none => true
  | some s => s == ""

/-- Stable insertion into a list sorted by the boolean relation `le`. -/
def insertLe {α : Type} (le : α → α → Bool) (a : α) : List α → List α
  | [] => [a]
  | b :: bs => if le a b then a :: b :: bs else b :: insertLe le a bs

/-- Insertion sort by `le`: models the ORM's `order_by`. -/
def sortLe {α : Type} (le : α → α → Bool) : List α → List α
  | [] => []
  | a :: as => insertLe le a (sortLe le as)

/-- Embeds `Post.objects...order_by("-date")`: newest first. -/
def postsByDateDesc (ps : List Post) : List Post :=
  sortLe (fun a b => decide (b.date ≤ a.date)) ps

/-- Embeds `Comment.objects.filter(post=post).order_by("date")`: oldest first. -/
def commentsOfPost (db : DB) (pid : Nat) : List Comment :=
  sortLe (fun a b => decide (a.date ≤ b.date))
    (db.comments.filter (fun c => c.postId == pid))

/-- Embeds `views.create_user` (POST path): validates the form, creates the auth
user (username is unique in `auth.User`, so a duplicate create raises and
surfaces as a 500), get-or-creates the role by name with no defaults
(so a role created here carries `can_moderate = False`, the model
default), and creates the profile. -/
def create_user (db : DB) (username email password is_admin : Option String) :
    Nat × DB :=
  if blankParam username || blankParam password || blankParam email ||
      blankParam is_admin then
    (400, db)
  else if (db.authUsers.find? (fun u => u.username == username.getD "")).isSome then
    (500, db)
  else
    let staff := is_admin == some "1"
    let auth_user : AuthUser := ⟨db.nextAuthId, username.getD "", staff⟩
    let (user_type, types2) :=
      getOrCreateUserType db.userTypes (if staff then "admin" else "serf") false
    let profile : Profile := ⟨db.nextProfileId, auth_user, user_type⟩
    (201, { db with
              authUsers := db.authUsers ++ [auth_user]
              userTypes := types2
              profiles := db.profiles ++ [profile]
              nextAuthId := db.nextAuthId + 1
              nextProfileId := db.nextProfileId + 1 })

/-- Embeds `views.create_post` (authenticated POST path): validates title/content,
get-or-creates the `"serf"` role with `can_moderate = False`, lazily
creates the missing profile with that role (regardless of `is_staff`),
and creates the post.  The source's `if not profile.user_type` repair
branch is unreachable (the FK is non-nullable) and is not modelled.
Returns (status, created post id) and the new state. -/
def create_post (db : DB) (user : AuthUser) (title content : Option String) :
    (Nat × Option Nat) × DB :=
  if blankParam title || blankParam content then
    ((400, none), db)
  else
    let (user_type, types2) := getOrCreateUserType db.userTypes "serf" false
    let (profile, profiles2, nextProf2) :=
      match findProfile db user with
      | some pr => (pr, db.profiles, db.nextProfileId)
      | none =>
        let pr : Profile := ⟨db.nextProfileId, user, user_type⟩
        (pr, db.profiles ++ [pr], db.nextProfileId + 1)
    let post : Post :=
      { id := db.nextPostId, author := profile, title := title.getD "",
        content := content.getD "", date := db.now }
    ((201, some post.id),
     { db with userTypes := types2, profiles := profiles2,
               nextProfileId := nextProf2,
               posts := db.posts ++ [post],
               nextPostId := db.nextPostId + 1 })

/-- Embeds `views.create_comment` (authenticated POST path): validates, looks up
the parent post (400 if absent), get-or-creates the role named `"admin"`
for staff (defaults `can_moderate = is_staff`) or `"serf"` otherwise,
lazily creates the missing profile with that role, and creates the
comment.  Returns (status, created comment id) and the new state. -/
def create_comment (db : DB) (user : AuthUser) (post_id : Option Nat)
    (content : Option String) : (Nat × Option Nat) × DB :=
  if post_id.isNone || blankParam content then
    ((400, none), db)
  else
    match findPost db (post_id.getD 0) with
    | none => ((400, none), db)
    | some post =>
      let (user_type, types2) :=
        getOrCreateUserType db.userTypes
          (if user.is_staff then "admin" else "serf") user.is_staff
      let (profile, profiles2, nextProf2) :=
        match findProfile db user with
        | some pr => (pr, db.profiles, db.nextProfileId)
        | none =>
          let pr : Profile := ⟨db.nextProfileId, user, user_type⟩
          (pr, db.profiles ++ [pr], db.nextProfileId + 1)
      let comment : Comment :=
        { id := db.nextCommentId, postId := post.id, author := profile,
          content := content.getD "", date := db.now }
      ((201, some comment.id),
       { db with userTypes := types2, profiles := profiles2,
                 nextProfileId := nextProf2,
                 comments := db.comments ++ [comment],
                 nextCommentId := db.nextCommentId + 1 })

/-- The four suppression-field assignments shared by `hide_post` and
`hide_comment` (`item.is_suppressed = True; item.suppressed_reason = …;
item.suppressed_datetime = timezone.now(); item.suppressed_by = profile`).
-/
def suppressPostFields (post : Post) (code : String) (now : Nat)
    (profileId : Nat) : Post :=
  { post with is_suppressed := true, suppressed_reason := some code,
              suppressed_datetime := some now,
              suppressed_by := some profileId }

def suppressCommentFields (comment : Comment) (code : String) (now : Nat)
    (profileId : Nat) : Comment :=
  { comment with is_suppressed := true, suppressed_reason := some code,
                 suppressed_datetime := some now,
                 suppressed_by := some profileId }

/-- Embeds `views.hide_post` (authenticated POST path), checks in source order:
non-staff → 401; missing `post_id` → 400; unknown post → 400; the
unguarded `User.objects.get(user=request.user)` raises on a missing
profile and surfaces as a 500; the own-post check
`post.author == profile and not request.user.is_staff` (only reachable
with `is_staff` true); then role/profile get-or-create, the reason
get-or-create keyed by `reason` (default `"default_reason"`), and the
four suppression fields written and saved. -/
def hide_post (db : DB) (user : AuthUser) (post_id : Option Nat)
    (reason : Option String) : Nat × DB :=
  if !user.is_staff then (401, db)
  else
    let reason_text := reason.getD "default_reason"
    match post_id with
    | none => (400, db)
    | some pid =>
      match findPost db pid with
      | none => (400, db)
      | some post =>
        match findProfile db user with
        | none => (500, db)
        | some profile =>
          if post.author.id == profile.id && !user.is_staff then (403, db)
          else
            let (_, types2) :=
              getOrCreateUserType db.userTypes
                (if user.is_staff then "admin" else "serf") user.is_staff
            let (reasonRec, reasons2) := getOrCreateReason db.reasons reason_text
            let updated : Post :=
              suppressPostFields post reasonRec.suppressed_code db.now profile.id
            (200, { db with userTypes := types2, reasons := reasons2,
                            posts := db.posts.map
                              (fun p => if p.id == post.id then updated else p) })

/-- Embeds `views.hide_comment` (authenticated POST path), checks in source
order: non-staff → 401; missing or non-integer `comment_id` → 400;
unknown comment → 400; missing profile → 400 (this lookup is guarded,
unlike `hide_post`'s); the own-comment check
`comment.author == profile and not request.user.is_staff` (only
reachable with `is_staff` true); then the reason get-or-create and the
four suppression fields written and saved. -/
def hide_comment (db : DB) (user : AuthUser) (comment_id : Option Nat)
    (reason : Option String) : Nat × DB :=
  if !user.is_staff then (401, db)
  else
    let reason_text := reason.getD "default_reason"
    match comment_id with
    | none => (400, db)
    | some cid =>
      match findComment db cid with
      | none => (400, db)
      | some comment =>
        match findProfile db user with
        | none => (400, db)
        | some profile =>
          if comment.author.id == profile.id && !user.is_staff then (403, db)
          else
            let (reasonRec, reasons2) := getOrCreateReason db.reasons reason_text
            let updated : Comment :=
              suppressCommentFields comment reasonRec.suppressed_code db.now
                profile.id
            (200, { db with reasons := reasons2,
                            comments := db.comments.map
                              (fun c => if c.id == comment.id then updated else c) })

/-- One row of the truncated feed payload (`views.feed`): no comments
field exists in this shape.  `date` carries the post's timestamp (the
`strftime` formatting is presentation only). -/
structure FeedEntry where
  id : Nat
  title : String
  username : String
  date : Nat
  content : String
  status : String
deriving Repr, DecidableEq

/-- The feed row built from a post (`views.feed` loop body). -/
def feedEntryOf (p : Post) : FeedEntry :=
  { id := p.id, title := p.title, username := p.author.user.username,
    date := p.date, content := p.content.take 100,
    status := if p.is_suppressed then "suppressed" else "active" }

/-- Embeds `views.feed` (authenticated path): moderators see every post, others
only non-suppressed or own posts; rows are truncated feed entries.
The unguarded profile lookup surfaces as a 500 when missing. -/
def feed (db : DB) (user : AuthUser) : Nat × Option (List FeedEntry) :=
  match findProfile db user with
  | none => (500, none)
  | some user_profile =>
    let posts :=
      if user_profile.user_type.can_moderate then postsByDateDesc db.posts
      else postsByDateDesc (db.posts.filter
        (fun p => !p.is_suppressed || p.author.id == user_profile.id))
    (200, some (posts.map feedEntryOf))

/-- One comment row of the post-detail payload (`views.post_detail`). -/
structure CommentEntry where
  id : Nat
  username : String
  date : Nat
  content : String
  status : String
deriving Repr, DecidableEq

/-- The redaction placeholder used by `views.post_detail`. -/
def removedPlaceholder : String := "This comment has been removed"

/-- The detail row built from a comment (`views.post_detail` loop body):
content is redacted in place when the comment is suppressed and the
viewer is neither its author nor a moderator. -/
def commentEntryOf (user_profile : Profile) (c : Comment) : CommentEntry :=
  { id := c.id, username := c.author.user.username, date := c.date,
    content :=
      if c.is_suppressed && !(c.author.id == user_profile.id) &&
          !user_profile.user_type.can_moderate then removedPlaceholder
      else c.content,
    status := if c.is_suppressed then "suppressed" else "active" }

/-- The post-detail payload (`views.post_detail`). -/
structure PostDetail where
  id : Nat
  title : String
  username : String
  date : Nat
  content : String
  status : String
  comments : List CommentEntry
deriving Repr, DecidableEq

/-- Embeds `views.post_detail` (authenticated path): 500 on a missing profile
(unguarded lookup), 404 on an unknown post, 403 with no payload when the
post is suppressed and the viewer is neither author nor moderator;
otherwise the full post with every comment, suppressed ones redacted in
place per `commentEntryOf`. -/
def post_detail (db : DB) (user : AuthUser) (post_id : Nat) :
    Nat × Option PostDetail :=
  match findProfile db user with
  | none => (500, none)
  | some user_profile =>
    match findPost db post_id with
    | none => (404, none)
    | some post =>
      if post.is_suppressed && !(post.author.id == user_profile.id) &&
          !user_profile.user_type.can_moderate then
        (403, none)
      else
        (200, some
          { id := post.id, title := post.title,
            username := post.author.user.username, date := post.date,
            content := post.content,
            status := if post.is_suppressed then "suppressed" else "active",
            comments := (commentsOfPost db post.id).map
              (commentEntryOf user_profile) })

/-- One request to an exposed application view (`urls.py` `urlpatterns`).
The database-writing views are `create_user`, `create_post`,
`create_comment`, `hide_post` and `hide_comment`; `readOnly` covers every
other application view (`index`, `new`, `new_post`, `new_comment`,
`dump_feed`, `feed`, `post_detail`, `feed_page`, `dummypage`, `time`,
`sum_numbers`, the login forms), which only query and render and perform
no save/create/delete.  The framework-provided `admin/` and auth
machinery are outside the modelled core per the spec's scope.
An unauthenticated request to any `login_required` view returns 401
before touching the store, so it is also covered by `readOnly`. -/
inductive Op where
  | createUser (username email password is_admin : Option String)
  | createPost (user : AuthUser) (title content : Option String)
  | createComment (user : AuthUser) (post_id : Option Nat) (content : Option String)
  | hidePost (user : AuthUser) (post_id : Option Nat) (reason : Option String)
  | hideComment (user : AuthUser) (comment_id : Option Nat) (reason : Option String)
  | readOnly
deriving Repr, DecidableEq

/-- The state transition performed by one exposed request (response
payload discarded). -/
def applyOp (db : DB) : Op → DB
  | .createUser username email password is_admin =>
    (create_user db username email password is_admin).2
  | .createPost user title content => (create_post db user title content).2
  | .createComment user post_id content =>
    (create_comment db user post_id content).2
  | .hidePost user post_id reason => (hide_post db user post_id reason).2
  | .hideComment user comment_id reason =>
    (hide_comment db user comment_id reason).2
  | .readOnly => db

/-- A whole sequence of exposed requests. -/
def applyOps (db : DB) (ops : List Op) : DB := ops.foldl applyOp db

theorem insertLe_perm {α : Type} (le : α → α → Bool) (a : α) (l : List α) :
    (insertLe le a l).Perm (a :: l) := by
  induction l with
  | nil => simp [insertLe]
  | cons b bs ih =>
    unfold insertLe
    by_cases h : le a b
    · simp [h]
    · simp only [h, if_neg, Bool.false_eq_true, not_false_eq_true, if_false]
      exact (ih.cons b).trans (List.Perm.swap a b bs)

theorem sortLe_perm {α : Type} (le : α → α → Bool) (l : List α) :
    (sortLe le l).Perm l := by
  induction l with
  | nil => simp [sortLe]
  | cons a as ih =>
    unfold sortLe
    exact (insertLe_perm le a (sortLe le as)).trans (ih.cons a)

/-- C2: `can_view(item, viewer)` is true exactly when the item is not
suppressed, or the viewer is a moderator, or the viewer is the item's
author; in particular every non-suppressed item is visible to every
viewer, and a suppressed item is visible iff the viewer moderates or
authored it.  `can_view` is a pure function of its two arguments, so it
has no side effects. -/
theorem can_view_spec (obj : ContentView) (user_profile : Profile) :
    can_view obj user_profile = true ↔
      obj.is_suppressed = false ∨ user_profile.user_type.can_moderate = true ∨
        obj.author.id = user_profile.id := by
  unfold can_view
  split_ifs with h1 h2 h3 <;> simp_all

/-- The staff moderator `mallory`, used to witness the self-suppression
slip: she authored post 1 and comment 1 herself. -/
def malloryAuth : AuthUser := ⟨1, "mallory", true⟩

def malloryProfile : Profile := ⟨1, malloryAuth, ⟨"admin", true⟩⟩

def malloryPost : Post :=
  { id := 1, author := malloryProfile, title := "mine", content := "my post",
    date := 3 }

def malloryComment : Comment :=
  { id := 1, postId := 1, author := malloryProfile, content := "my comment",
    date := 4 }

def dbSelf : DB :=
  { authUsers := [malloryAuth], userTypes := [⟨"admin", true⟩],
    profiles := [malloryProfile], posts := [malloryPost],
    comments := [malloryComment], reasons := [],
    nextAuthId := 2, nextProfileId := 2, nextPostId := 2, nextCommentId := 2,
    now := 7 }

/-- C1: the claim fails on the code.  The own-content guard in both
`hide_post` and `hide_comment` reads
`if item.author == profile and not request.user.is_staff`, but it sits
after the `if not request.user.is_staff: return 401` gate, so the
`not is_staff` conjunct is always false there and the 403 branch is
unreachable: a staff moderator suppressing their own post or comment
gets 200 and the item is suppressed, contradicting the spec's P4 and the
code's own comments ("prevent suppressing own posts" / "Prevent hiding
own comment"). -/
theorem hide_self_suppression_code_bug :
    (hide_post dbSelf malloryAuth (some 1) none).1 = 200 ∧
    (∃ p ∈ (hide_post dbSelf malloryAuth (some 1) none).2.posts,
       p.id = 1 ∧ p.is_suppressed = true ∧ p.suppressed_by = some 1) ∧
    (hide_comment dbSelf malloryAuth (some 1) none).1 = 200 ∧
    (∃ c ∈ (hide_comment dbSelf malloryAuth (some 1) none).2.comments,
       c.id = 1 ∧ c.is_suppressed = true ∧ c.suppressed_by = some 1) := by
  decide

theorem findPost_id {db : DB} {pid : Nat} {post : Post}
    (h : findPost db pid = some post) : post.id = pid := by
  simpa using List.find?_some h

theorem findPost_mem {db : DB} {pid : Nat} {post : Post}
    (h : findPost db pid = some post) : post ∈ db.posts :=
  List.mem_of_find?_eq_some h

theorem findComment_id {db : DB} {cid : Nat} {c : Comment}
    (h : findComment db cid = some c) : c.id = cid := by
  simpa using List.find?_some h

theorem findComment_mem {db : DB} {cid : Nat} {c : Comment}
    (h : findComment db cid = some c) : c ∈ db.comments :=
  List.mem_of_find?_eq_some h

theorem findProfile_user_id {db : DB} {user : AuthUser} {pr : Profile}
    (h : findProfile db user = some pr) : pr.user.id = user.id := by
  simpa using List.find?_some h

theorem getOrCreateReason_code (rs : List SuppressionReason) (code : String) :
    (getOrCreateReason rs code).1.suppressed_code = code := by
  unfold getOrCreateReason
  cases hf : rs.find? (fun r => r.suppressed_code == code) with
  | none => rfl
  | some r => simpa using List.find?_some hf

theorem getOrCreateReason_fst_mem (rs : List SuppressionReason) (code : String) :
    (getOrCreateReason rs code).1 ∈ (getOrCreateReason rs code).2 := by
  unfold getOrCreateReason
  cases hf : rs.find? (fun r => r.suppressed_code == code) with
  | none => simp
  | some r => exact List.mem_of_find?_eq_some hf

/-- Shape of a successful `hide_post`: the 200 branch pins down every
component of the output state. -/
theorem hide_post_success {db : DB} {user : AuthUser} {post_id : Option Nat}
    {reason : Option String} {db' : DB}
    (h : hide_post db user post_id reason = (200, db')) :
    ∃ pid post profile,
      post_id = some pid ∧ findPost db pid = some post ∧
      findProfile db user = some profile ∧ user.is_staff = true ∧
      db' = { db with
        userTypes := (getOrCreateUserType db.userTypes "admin" true).2,
        reasons := (getOrCreateReason db.reasons
          (reason.getD "default_reason")).2,
        posts := db.posts.map (fun p =>
          if p.id == post.id then
            suppressPostFields post (getOrCreateReason db.reasons
              (reason.getD "default_reason")).1.suppressed_code db.now
              profile.id
          else p) } := by
  simp only [hide_post] at h
  split at h
  · simp at h
  next hstaff =>
    have hs : user.is_staff = true := by
      rcases Bool.eq_false_or_eq_true user.is_staff with h' | h'
      · exact h'
      · simp [h'] at hstaff
    simp only [hs, Bool.not_true, Bool.and_false, Bool.false_eq_true,
      if_false, if_true] at h
    split at h
    · simp at h
    next pid =>
      split at h
      · simp at h
      next post hfp =>
        split at h
        · simp at h
        next profile hpr =>
          simp only [Prod.mk.injEq] at h
          exact ⟨pid, post, profile, rfl, hfp, hpr, hs, h.2.symm⟩

/-- Shape of a successful `hide_comment`. -/
theorem hide_comment_success {db : DB} {user : AuthUser}
    {comment_id : Option Nat} {reason : Option String} {db' : DB}
    (h : hide_comment db user comment_id reason = (200, db')) :
    ∃ cid comment profile,
      comment_id = some cid ∧ findComment db cid = some comment ∧
      findProfile db user = some profile ∧ user.is_staff = true ∧
      db' = { db with
        reasons := (getOrCreateReason db.reasons
          (reason.getD "default_reason")).2,
        comments := db.comments.map (fun c =>
          if c.id == comment.id then
            suppressCommentFields comment (getOrCreateReason db.reasons
              (reason.getD "default_reason")).1.suppressed_code db.now
              profile.id
          else c) } := by
  simp only [hide_comment] at h
  split at h
  · simp at h
  next hstaff =>
    have hs : user.is_staff = true := by
      rcases Bool.eq_false_or_eq_true user.is_staff with h' | h'
      · exact h'
      · simp [h'] at hstaff
    simp only [hs, Bool.not_true, Bool.and_false, Bool.false_eq_true,
      if_false, if_true] at h
    split at h
    · simp at h
    next cid =>
      split at h
      · simp at h
      next comment hfc =>
        split at h
        · simp at h
        next profile hpr =>
          simp only [Prod.mk.injEq] at h
          exact ⟨cid, comment, profile, rfl, hfc, hpr, hs, h.2.symm⟩

/-- C5: a successful suppression (status 200) leaves the target with all
four suppression fields set: `is_suppressed` true, `suppressed_reason`
the reason record looked up or created for the request's code (a record
with that code is in the catalog afterwards), `suppressed_datetime` the
current time, and `suppressed_by` the acting profile; when the request
carries no reason, the sentinel code `"default_reason"` is used. -/
theorem hide_success_sets_all_suppression_fields (db : DB) (user : AuthUser)
    (post_id comment_id : Option Nat) (reason : Option String) :
    (∀ db', hide_post db user post_id reason = (200, db') →
       ∃ pid profile, post_id = some pid ∧
         findProfile db user = some profile ∧
         (∃ r ∈ db'.reasons, r.suppressed_code = reason.getD "default_reason") ∧
         ∃ p ∈ db'.posts, p.id = pid ∧ p.is_suppressed = true ∧
           p.suppressed_reason = some (reason.getD "default_reason") ∧
           p.suppressed_datetime = some db.now ∧
           p.suppressed_by = some profile.id) ∧
    (∀ db', hide_comment db user comment_id reason = (200, db') →
       ∃ cid profile, comment_id = some cid ∧
         findProfile db user = some profile ∧
         (∃ r ∈ db'.reasons, r.suppressed_code = reason.getD "default_reason") ∧
         ∃ c ∈ db'.comments, c.id = cid ∧ c.is_suppressed = true ∧
           c.suppressed_reason = some (reason.getD "default_reason") ∧
           c.suppressed_datetime = some db.now ∧
           c.suppressed_by = some profile.id) := by
  constructor
  · intro db' h
    obtain ⟨pid, post, profile, hpid, hfp, hpr, hs, hdb⟩ := hide_post_success h
    subst hdb
    refine ⟨pid, profile, hpid, hpr,
      ⟨(getOrCreateReason db.reasons (reason.getD "default_reason")).1,
        getOrCreateReason_fst_mem db.reasons _,
        getOrCreateReason_code db.reasons _⟩, ?_⟩
    refine ⟨suppressPostFields post (getOrCreateReason db.reasons
              (reason.getD "default_reason")).1.suppressed_code db.now
              profile.id,
            List.mem_map.mpr ⟨post, findPost_mem hfp, by simp⟩,
            (by simpa [suppressPostFields] using findPost_id hfp),
            rfl, ?_, rfl, rfl⟩
    simp [suppressPostFields, getOrCreateReason_code]
  · intro db' h
    obtain ⟨cid, comment, profile, hcid, hfc, hpr, hs, hdb⟩ :=
      hide_comment_success h
    subst hdb
    refine ⟨cid, profile, hcid, hpr,
      ⟨(getOrCreateReason db.reasons (reason.getD "default_reason")).1,
        getOrCreateReason_fst_mem db.reasons _,
        getOrCreateReason_code db.reasons _⟩, ?_⟩
    refine ⟨suppressCommentFields comment (getOrCreateReason db.reasons
              (reason.getD "default_reason")).1.suppressed_code db.now
              profile.id,
            List.mem_map.mpr ⟨comment, findComment_mem hfc, by simp⟩,
            (by simpa [suppressCommentFields] using findComment_id hfc),
            rfl, ?_, rfl, rfl⟩
    simp [suppressCommentFields, getOrCreateReason_code]

/-- C6: both suppression views authorize by the auth account's
`is_staff` flag alone.  A non-staff request is rejected with 401
whatever the requester's profile role says, and a staff request is never
rejected with 401, whatever the profile role says — while `can_view`
consults `user_type.can_moderate` instead, so suppression authority and
suppressed-content visibility can diverge for one principal. -/
theorem hide_authorization_is_staff_only (db : DB) (user : AuthUser)
    (post_id comment_id : Option Nat) (reason : Option String) :
    (user.is_staff = false →
       hide_post db user post_id reason = (401, db) ∧
       hide_comment db user comment_id reason = (401, db)) ∧
    (user.is_staff = true →
       (hide_post db user post_id reason).1 ≠ 401 ∧
       (hide_comment db user comment_id reason).1 ≠ 401) := by
  constructor
  · intro h
    constructor <;> simp [hide_post, hide_comment, h]
  · intro h
    constructor
    · unfold hide_post
      simp only [h, Bool.not_true, Bool.and_false, Bool.false_eq_true,
        if_false]
      split
      · simp
      · split
        · simp
        · split
          · simp
          · simp
    · unfold hide_comment
      simp only [h, Bool.not_true, Bool.and_false, Bool.false_eq_true,
        if_false]
      split
      · simp
      · split
        · simp
        · split
          · simp
          · simp

/-- C3: single-post detail.  With the viewer's profile and the post
present: if the post is suppressed and the viewer is neither its author
nor a moderator, the request fails with 403 and no payload; otherwise
the post is returned (status 200) with its full content and a row for
every comment of the post, where a comment's rendered content is the
fixed placeholder "This comment has been removed" exactly when it is
suppressed and the viewer is neither its author nor a moderator, and the
comment's stored content verbatim otherwise. -/
theorem post_detail_spec (db : DB) (user : AuthUser) (viewer : Profile)
    (pid : Nat) (p : Post)
    (hview : findProfile db user = some viewer)
    (hp : findPost db pid = some p) :
    (p.is_suppressed = true → p.author.id ≠ viewer.id →
       viewer.user_type.can_moderate = false →
       post_detail db user pid = (403, none)) ∧
    (p.is_suppressed = false ∨ p.author.id = viewer.id ∨
       viewer.user_type.can_moderate = true →
       ∃ data, post_detail db user pid = (200, some data) ∧
         data.id = p.id ∧ data.title = p.title ∧ data.content = p.content ∧
         data.comments.Perm ((db.comments.filter
           (fun c => c.postId == p.id)).map (commentEntryOf viewer)) ∧
         ∀ c : Comment, (commentEntryOf viewer c).content =
           if c.is_suppressed = true ∧ c.author.id ≠ viewer.id ∧
              viewer.user_type.can_moderate = false
           then "This comment has been removed" else c.content) := by
  have hrun : post_detail db user pid =
      (if p.is_suppressed && !(p.author.id == viewer.id) &&
          !viewer.user_type.can_moderate then (403, none)
       else (200, some
         { id := p.id, title := p.title, username := p.author.user.username,
           date := p.date, content := p.content,
           status := if p.is_suppressed then "suppressed" else "active",
           comments := (commentsOfPost db p.id).map
             (commentEntryOf viewer) })) := by
    unfold post_detail
    rw [hview, hp]
  constructor
  · intro h1 h2 h3
    have hbeq : (p.author.id == viewer.id) = false := by simpa using h2
    rw [hrun]
    simp [h1, h3, hbeq]
  · intro h
    have hcond : (p.is_suppressed && !(p.author.id == viewer.id) &&
        !viewer.user_type.can_moderate) = false := by
      rcases h with h | h | h <;> simp [h]
    refine ⟨{ id := p.id, title := p.title,
              username := p.author.user.username, date := p.date,
              content := p.content,
              status := if p.is_suppressed then "suppressed" else "active",
              comments := (commentsOfPost db p.id).map
                (commentEntryOf viewer) },
            by rw [hrun]; simp [hcond], rfl, rfl, rfl, ?_, ?_⟩
    · exact (sortLe_perm _ _).map (commentEntryOf viewer)
    · intro c
      by_cases h1 : c.is_suppressed = true <;>
        by_cases h2 : c.author.id = viewer.id <;>
          by_cases h3 : viewer.user_type.can_moderate = true <;>
            simp [commentEntryOf, removedPlaceholder, h1, h2, h3]

/-- C4: truncated feed.  With the viewer's profile present: a
non-moderator gets rows for exactly the posts that are not suppressed
or that the viewer authored, a moderator gets a row for every post
(suppressed included); each row carries the "suppressed"/"active"
status tag and the post content cut to its first 100 characters.  The
row shape (`FeedEntry`) has no comments field, so comments are never
included. -/
theorem feed_spec (db : DB) (user : AuthUser) (viewer : Profile)
    (hview : findProfile db user = some viewer) :
    (viewer.user_type.can_moderate = false →
       ∃ rows, feed db user = (200, some rows) ∧
         rows.Perm ((db.posts.filter (fun p =>
           !p.is_suppressed || p.author.id == viewer.id)).map feedEntryOf)) ∧
    (viewer.user_type.can_moderate = true →
       ∃ rows, feed db user = (200, some rows) ∧
         rows.Perm (db.posts.map feedEntryOf)) ∧
    (∀ p : Post, (feedEntryOf p).status =
         (if p.is_suppressed = true then "suppressed" else "active") ∧
       (feedEntryOf p).content = p.content.take 100) := by
  have hrun : feed db user =
      (200, some ((if viewer.user_type.can_moderate then
          postsByDateDesc db.posts
        else postsByDateDesc (db.posts.filter (fun p =>
          !p.is_suppressed || p.author.id == viewer.id))).map feedEntryOf)) := by
    unfold feed
    rw [hview]
  refine ⟨?_, ?_, ?_⟩
  · intro h
    have hr : feed db user = (200, some ((postsByDateDesc
        (db.posts.filter (fun p =>
          !p.is_suppressed || p.author.id == viewer.id))).map feedEntryOf)) := by
      rw [hrun, if_neg (by simp [h])]
    exact ⟨_, hr, by
      simpa [postsByDateDesc] using (sortLe_perm _ _).map feedEntryOf⟩
  · intro h
    have hr : feed db user =
        (200, some ((postsByDateDesc db.posts).map feedEntryOf)) := by
      rw [hrun, if_pos h]
    exact ⟨_, hr, by
      simpa [postsByDateDesc] using (sortLe_perm _ _).map feedEntryOf⟩
  · intro p
    refine ⟨?_, ?_⟩ <;> simp [feedEntryOf]

theorem create_user_content_invariant (db : DB)
    (a b c d : Option String) :
    (create_user db a b c d).2.posts = db.posts ∧
    (create_user db a b c d).2.comments = db.comments ∧
    (create_user db a b c d).2.nextPostId = db.nextPostId ∧
    (create_user db a b c d).2.nextCommentId = db.nextCommentId ∧
    (create_user db a b c d).2.reasons = db.reasons := by
  unfold create_user
  split
  · exact ⟨rfl, rfl, rfl, rfl, rfl⟩
  · split
    · exact ⟨rfl, rfl, rfl, rfl, rfl⟩
    · exact ⟨rfl, rfl, rfl, rfl, rfl⟩

theorem create_post_state_shape (db : DB) (user : AuthUser)
    (title content : Option String) :
    (create_post db user title content).2 = db ∨
    ∃ post : Post, post.id = db.nextPostId ∧ post.is_suppressed = false ∧
      post.suppressed_reason = none ∧ post.suppressed_datetime = none ∧
      post.suppressed_by = none ∧
      (create_post db user title content).2.posts = db.posts ++ [post] ∧
      (create_post db user title content).2.nextPostId = db.nextPostId + 1 ∧
      (create_post db user title content).2.comments = db.comments ∧
      (create_post db user title content).2.nextCommentId = db.nextCommentId ∧
      (create_post db user title content).2.reasons = db.reasons := by
  unfold create_post
  split
  · exact Or.inl rfl
  · exact Or.inr ⟨_, rfl, rfl, rfl, rfl, rfl, rfl, rfl, rfl, rfl, rfl⟩

theorem create_comment_state_shape (db : DB) (user : AuthUser)
    (post_id : Option Nat) (content : Option String) :
    (create_comment db user post_id content).2 = db ∨
    ∃ comment : Comment, comment.id = db.nextCommentId ∧
      comment.is_suppressed = false ∧
      comment.suppressed_reason = none ∧ comment.suppressed_datetime = none ∧
      comment.suppressed_by = none ∧
      (create_comment db user post_id content).2.comments =
        db.comments ++ [comment] ∧
      (create_comment db user post_id content).2.nextCommentId =
        db.nextCommentId + 1 ∧
      (create_comment db user post_id content).2.posts = db.posts ∧
      (create_comment db user post_id content).2.nextPostId = db.nextPostId ∧
      (create_comment db user post_id content).2.reasons = db.reasons := by
  unfold create_comment
  split
  · exact Or.inl rfl
  · split
    · exact Or.inl rfl
    · exact Or.inr ⟨_, rfl, rfl, rfl, rfl, rfl, rfl, rfl, rfl, rfl, rfl⟩

theorem hide_post_state_shape (db : DB) (user : AuthUser)
    (post_id : Option Nat) (reason : Option String) :
    (hide_post db user post_id reason).2 = db ∨
    ∃ (post : Post) (profile : Profile), post ∈ db.posts ∧
      (hide_post db user post_id reason).2.posts = db.posts.map (fun p =>
        if p.id == post.id then
          suppressPostFields post (getOrCreateReason db.reasons
            (reason.getD "default_reason")).1.suppressed_code db.now
            profile.id
        else p) ∧
      (hide_post db user post_id reason).2.comments = db.comments ∧
      (hide_post db user post_id reason).2.nextPostId = db.nextPostId ∧
      (hide_post db user post_id reason).2.nextCommentId = db.nextCommentId ∧
      (hide_post db user post_id reason).2.reasons =
        (getOrCreateReason db.reasons (reason.getD "default_reason")).2 := by
  unfold hide_post
  split
  · exact Or.inl rfl
  · split
    · exact Or.inl rfl
    · split
      · exact Or.inl rfl
      next post hfp =>
        split
        · exact Or.inl rfl
        next profile hpr =>
          split
          · exact Or.inl rfl
          · exact Or.inr ⟨post, profile, findPost_mem hfp,
              rfl, rfl, rfl, rfl, rfl⟩

theorem hide_comment_state_shape (db : DB) (user : AuthUser)
    (comment_id : Option Nat) (reason : Option String) :
    (hide_comment db user comment_id reason).2 = db ∨
    ∃ (comment : Comment) (profile : Profile), comment ∈ db.comments ∧
      (hide_comment db user comment_id reason).2.comments =
        db.comments.map (fun c =>
          if c.id == comment.id then
            suppressCommentFields comment (getOrCreateReason db.reasons
              (reason.getD "default_reason")).1.suppressed_code db.now
              profile.id
          else c) ∧
      (hide_comment db user comment_id reason).2.posts = db.posts ∧
      (hide_comment db user comment_id reason).2.nextPostId = db.nextPostId ∧
      (hide_comment db user comment_id reason).2.nextCommentId =
        db.nextCommentId ∧
      (hide_comment db user comment_id reason).2.reasons =
        (getOrCreateReason db.reasons (reason.getD "default_reason")).2 := by
  unfold hide_comment
  split
  · exact Or.inl rfl
  · split
    · exact Or.inl rfl
    · split
      · exact Or.inl rfl
      next comment hfc =>
        split
        · exact Or.inl rfl
        next profile hpr =>
          split
          · exact Or.inl rfl
          · exact Or.inr ⟨comment, profile, findComment_mem hfc,
              rfl, rfl, rfl, rfl, rfl⟩

/-- Primary keys are unique and below the autoincrement counter — the
standing property of Django's autoincrement pks, maintained by every
exposed operation. -/
def idsWellFormed (db : DB) : Prop :=
  (db.posts.map Post.id).Nodup ∧ (∀ p ∈ db.posts, p.id < db.nextPostId) ∧
  (db.comments.map Comment.id).Nodup ∧
  (∀ c ∈ db.comments, c.id < db.nextCommentId)

instance (db : DB) : Decidable (idsWellFormed db) := by
  unfold idsWellFormed; infer_instance

theorem suppressPostMap_id (post : Post) (code : String) (now profId : Nat)
    (p : Post) :
    (if p.id == post.id then suppressPostFields post code now profId
     else p).id = p.id := by
  by_cases h : p.id = post.id
  · simp [h, suppressPostFields]
  · simp [h]

theorem suppressCommentMap_id (comment : Comment) (code : String)
    (now profId : Nat) (c : Comment) :
    (if c.id == comment.id then
       suppressCommentFields comment code now profId
     else c).id = c.id := by
  by_cases h : c.id = comment.id
  · simp [h, suppressCommentFields]
  · simp [h]

theorem applyOp_idsWellFormed (db : DB) (op : Op) (h : idsWellFormed db) :
    idsWellFormed (applyOp db op) := by
  obtain ⟨hnp, hbp, hnc, hbc⟩ := h
  cases op with
  | createUser a b c d =>
    obtain ⟨h1, h2, h3, h4, _⟩ := create_user_content_invariant db a b c d
    exact ⟨by simp only [applyOp]; rw [h1]; exact hnp,
           by simp only [applyOp]; rw [h1, h3]; exact hbp,
           by simp only [applyOp]; rw [h2]; exact hnc,
           by simp only [applyOp]; rw [h2, h4]; exact hbc⟩
  | createPost u t c =>
    rcases create_post_state_shape db u t c with heq |
      ⟨post, hid, _, _, _, _, hposts, hnext, hcom, hnextc, _⟩
    · exact ⟨by simp only [applyOp, heq]; exact hnp,
             by simp only [applyOp, heq]; exact hbp,
             by simp only [applyOp, heq]; exact hnc,
             by simp only [applyOp, heq]; exact hbc⟩
    · refine ⟨?_, ?_, ?_, ?_⟩ <;> simp only [applyOp]
      · rw [hposts, List.map_append, List.nodup_append]
        refine ⟨hnp, List.nodup_singleton _, ?_⟩
        intro a ha hb
        simp only [List.map_cons, List.map_nil, List.mem_singleton] at hb
        obtain ⟨q, hq, hqa⟩ := List.mem_map.mp ha
        have := hbp q hq
        omega
      · intro p hp
        rw [hposts] at hp
        rw [hnext]
        rcases List.mem_append.mp hp with hp | hp
        · exact lt_trans (hbp p hp) (Nat.lt_succ_self _)
        · simp only [List.mem_singleton] at hp
          subst hp
          rw [hid]
          exact Nat.lt_succ_self _
      · rw [hcom]; exact hnc
      · rw [hcom, hnextc]; exact hbc
  | createComment u pid c =>
    rcases create_comment_state_shape db u pid c with heq |
      ⟨comment, hid, _, _, _, _, hcoms, hnext, hposts, hnextp, _⟩
    · exact ⟨by simp only [applyOp, heq]; exact hnp,
             by simp only [applyOp, heq]; exact hbp,
             by simp only [applyOp, heq]; exact hnc,
             by simp only [applyOp, heq]; exact hbc⟩
    · refine ⟨?_, ?_, ?_, ?_⟩ <;> simp only [applyOp]
      · rw [hposts]; exact hnp
      · rw [hposts, hnextp]; exact hbp
      · rw [hcoms, List.map_append, List.nodup_append]
        refine ⟨hnc, List.nodup_singleton _, ?_⟩
        intro a ha hb
        simp only [List.map_cons, List.map_nil, List.mem_singleton] at hb
        obtain ⟨q, hq, hqa⟩ := List.mem_map.mp ha
        have := hbc q hq
        omega
      · intro cc hcc
        rw [hcoms] at hcc
        rw [hnext]
        rcases List.mem_append.mp hcc with hcc | hcc
        · exact lt_trans (hbc cc hcc) (Nat.lt_succ_self _)
        · simp only [List.mem_singleton] at hcc
          subst hcc
          rw [hid]
          exact Nat.lt_succ_self _
  | hidePost u pid r =>
    rcases hide_post_state_shape db u pid r with heq |
      ⟨post, profile, hmem, hposts, hcom, hnext, hnextc, _⟩
    · exact ⟨by simp only [applyOp, heq]; exact hnp,
             by simp only [applyOp, heq]; exact hbp,
             by simp only [applyOp, heq]; exact hnc,
             by simp only [applyOp, heq]; exact hbc⟩
    · have hids : (hide_post db u pid r).2.posts.map Post.id =
          db.posts.map Post.id := by
        rw [hposts, List.map_map]
        exact List.map_congr_left (fun p _ => suppressPostMap_id post _ _ _ p)
      refine ⟨?_, ?_, ?_, ?_⟩ <;> simp only [applyOp]
      · rw [hids]; exact hnp
      · intro p hp
        rw [hposts] at hp
        rw [hnext]
        obtain ⟨q, hq, hfq⟩ := List.mem_map.mp hp
        have hqi : p.id = q.id := by
          rw [← hfq]; exact suppressPostMap_id post _ _ _ q
        rw [hqi]; exact hbp q hq
      · rw [hcom]; exact hnc
      · rw [hcom, hnextc]; exact hbc
  | hideComment u cid r =>
    rcases hide_comment_state_shape db u cid r with heq |
      ⟨comment, profile, hmem, hcoms, hposts, hnextp, hnext, _⟩
    · exact ⟨by simp only [applyOp, heq]; exact hnp,
             by simp only [applyOp, heq]; exact hbp,
             by simp only [applyOp, heq]; exact hnc,
             by simp only [applyOp, heq]; exact hbc⟩
    · have hids : (hide_comment db u cid r).2.comments.map Comment.id =
          db.comments.map Comment.id := by
        rw [hcoms, List.map_map]
        exact List.map_congr_left
          (fun c _ => suppressCommentMap_id comment _ _ _ c)
      refine ⟨?_, ?_, ?_, ?_⟩ <;> simp only [applyOp]
      · rw [hposts]; exact hnp
      · rw [hposts, hnextp]; exact hbp
      · rw [hids]; exact hnc
      · intro c hc
        rw [hcoms] at hc
        rw [hnext]
        obtain ⟨q, hq, hfq⟩ := List.mem_map.mp hc
        have hqi : c.id = q.id := by
          rw [← hfq]; exact suppressCommentMap_id comment _ _ _ q
        rw [hqi]; exact hbc q hq
  | readOnly => exact ⟨hnp, hbp, hnc, hbc⟩

theorem applyOps_idsWellFormed (ops : List Op) (db : DB)
    (h : idsWellFormed db) : idsWellFormed (applyOps db ops) := by
  induction ops generalizing db with
  | nil => exact h
  | cons op ops ih => exact ih _ (applyOp_idsWellFormed db op h)

theorem applyOp_keeps_suppressed_post (db : DB) (op : Op) (i : Nat)
    (h : ∃ p ∈ db.posts, p.id = i ∧ p.is_suppressed = true) :
    ∃ p ∈ (applyOp db op).posts, p.id = i ∧ p.is_suppressed = true := by
  obtain ⟨p, hp, hpi, hps⟩ := h
  cases op with
  | createUser a b c d =>
    obtain ⟨h1, _, _, _, _⟩ := create_user_content_invariant db a b c d
    exact ⟨p, by simp only [applyOp]; rw [h1]; exact hp, hpi, hps⟩
  | createPost u t c =>
    rcases create_post_state_shape db u t c with heq |
      ⟨post, _, _, _, _, _, hposts, _, _, _, _⟩
    · exact ⟨p, by simp only [applyOp, heq]; exact hp, hpi, hps⟩
    · exact ⟨p, (by simp only [applyOp]; rw [hposts]; exact List.mem_append_left _ hp), hpi, hps⟩
  | createComment u pid c =>
    rcases create_comment_state_shape db u pid c with heq |
      ⟨comment, _, _, _, _, _, _, _, hposts, _, _⟩
    · exact ⟨p, by simp only [applyOp, heq]; exact hp, hpi, hps⟩
    · exact ⟨p, by simp only [applyOp]; rw [hposts]; exact hp, hpi, hps⟩
  | hidePost u pid r =>
    rcases hide_post_state_shape db u pid r with heq |
      ⟨post, profile, hmem, hposts, _, _, _, _⟩
    · exact ⟨p, by simp only [applyOp, heq]; exact hp, hpi, hps⟩
    · refine ⟨if p.id == post.id then
          suppressPostFields post (getOrCreateReason db.reasons
            (r.getD "default_reason")).1.suppressed_code db.now profile.id
        else p,
        by simp only [applyOp]; rw [hposts]; exact List.mem_map_of_mem _ hp,
        ?_, ?_⟩
      · rw [suppressPostMap_id]; exact hpi
      · by_cases hc : p.id = post.id <;>
          simp [hc, suppressPostFields, hps]
  | hideComment u cid r =>
    rcases hide_comment_state_shape db u cid r with heq |
      ⟨comment, profile, hmem, _, hposts, _, _, _⟩
    · exact ⟨p, by simp only [applyOp, heq]; exact hp, hpi, hps⟩
    · exact ⟨p, by simp only [applyOp]; rw [hposts]; exact hp, hpi, hps⟩
  | readOnly => exact ⟨p, hp, hpi, hps⟩

theorem applyOp_keeps_suppressed_comment (db : DB) (op : Op) (i : Nat)
    (h : ∃ c ∈ db.comments, c.id = i ∧ c.is_suppressed = true) :
    ∃ c ∈ (applyOp db op).comments, c.id = i ∧ c.is_suppressed = true := by
  obtain ⟨c, hc, hci, hcs⟩ := h
  cases op with
  | createUser a b cc d =>
    obtain ⟨_, h2, _, _, _⟩ := create_user_content_invariant db a b cc d
    exact ⟨c, by simp only [applyOp]; rw [h2]; exact hc, hci, hcs⟩
  | createPost u t cc =>
    rcases create_post_state_shape db u t cc with heq |
      ⟨post, _, _, _, _, _, _, _, hcoms, _, _⟩
    · exact ⟨c, by simp only [applyOp, heq]; exact hc, hci, hcs⟩
    · exact ⟨c, by simp only [applyOp]; rw [hcoms]; exact hc, hci, hcs⟩
  | createComment u pid cc =>
    rcases create_comment_state_shape db u pid cc with heq |
      ⟨comment, _, _, _, _, _, hcoms, _, _, _, _⟩
    · exact ⟨c, by simp only [applyOp, heq]; exact hc, hci, hcs⟩
    · exact ⟨c, (by simp only [applyOp]; rw [hcoms]; exact List.mem_append_left _ hc), hci, hcs⟩
  | hidePost u pid r =>
    rcases hide_post_state_shape db u pid r with heq |
      ⟨post, profile, hmem, _, hcoms, _, _, _⟩
    · exact ⟨c, by simp only [applyOp, heq]; exact hc, hci, hcs⟩
    · exact ⟨c, by simp only [applyOp]; rw [hcoms]; exact hc, hci, hcs⟩
  | hideComment u cid r =>
    rcases hide_comment_state_shape db u cid r with heq |
      ⟨comment, profile, hmem, hcoms, _, _, _, _⟩
    · exact ⟨c, by simp only [applyOp, heq]; exact hc, hci, hcs⟩
    · refine ⟨if c.id == comment.id then
          suppressCommentFields comment (getOrCreateReason db.reasons
            (r.getD "default_reason")).1.suppressed_code db.now profile.id
        else c,
        by simp only [applyOp]; rw [hcoms]; exact List.mem_map_of_mem _ hc,
        ?_, ?_⟩
      · rw [suppressCommentMap_id]; exact hci
      · by_cases hcase : c.id = comment.id <;>
          simp [hcase, suppressCommentFields, hcs]
  | readOnly => exact ⟨c, hc, hci, hcs⟩

theorem applyOps_keeps_suppressed_post (ops : List Op) (db : DB) (i : Nat)
    (h : ∃ p ∈ db.posts, p.id = i ∧ p.is_suppressed = true) :
    ∃ p ∈ (applyOps db ops).posts, p.id = i ∧ p.is_suppressed = true := by
  induction ops generalizing db with
  | nil => exact h
  | cons op ops ih => exact ih _ (applyOp_keeps_suppressed_post db op i h)

theorem applyOps_keeps_suppressed_comment (ops : List Op) (db : DB) (i : Nat)
    (h : ∃ c ∈ db.comments, c.id = i ∧ c.is_suppressed = true) :
    ∃ c ∈ (applyOps db ops).comments, c.id = i ∧ c.is_suppressed = true := by
  induction ops generalizing db with
  | nil => exact h
  | cons op ops ih => exact ih _ (applyOp_keeps_suppressed_comment db op i h)

theorem suppressed_post_forall_of_nodup (posts : List Post) (i : Nat)
    (hn : (posts.map Post.id).Nodup)
    (h : ∃ p ∈ posts, p.id = i ∧ p.is_suppressed = true) :
    ∀ q ∈ posts, q.id = i → q.is_suppressed = true := by
  obtain ⟨p, hp, hpi, hps⟩ := h
  intro q hq hqi
  have heq : p = q :=
    List.inj_on_of_nodup_map hn hp hq (by rw [hpi, hqi])
  rw [← heq]
  exact hps

theorem suppressed_comment_forall_of_nodup (comments : List Comment) (i : Nat)
    (hn : (comments.map Comment.id).Nodup)
    (h : ∃ c ∈ comments, c.id = i ∧ c.is_suppressed = true) :
    ∀ q ∈ comments, q.id = i → q.is_suppressed = true := by
  obtain ⟨c, hc, hci, hcs⟩ := h
  intro q hq hqi
  have heq : c = q :=
    List.inj_on_of_nodup_map hn hc hq (by rw [hci, hqi])
  rw [← heq]
  exact hcs

/-- C7: suppression is one-way.  Starting from a store whose pks are
well-formed, once `hide_post` (resp. `hide_comment`) succeeds on item
`i`, after any sequence of requests to the exposed application views the
item with id `i` still has `is_suppressed = true`: no exposed operation
resets the flag. -/
theorem suppression_is_one_way (db : DB) (user : AuthUser) (i : Nat)
    (reason : Option String) (ops : List Op) (hwf : idsWellFormed db) :
    (∀ db1, hide_post db user (some i) reason = (200, db1) →
       ∀ p ∈ (applyOps db1 ops).posts, p.id = i → p.is_suppressed = true) ∧
    (∀ db1, hide_comment db user (some i) reason = (200, db1) →
       ∀ c ∈ (applyOps db1 ops).comments, c.id = i →
         c.is_suppressed = true) := by
  constructor
  · intro db1 h
    have hdb1 : applyOp db (Op.hidePost user (some i) reason) = db1 := by
      simp only [applyOp]; rw [h]
    have hwf1 : idsWellFormed db1 := hdb1 ▸ applyOp_idsWellFormed db _ hwf
    have hsupp : ∃ p ∈ db1.posts, p.id = i ∧ p.is_suppressed = true := by
      obtain ⟨pid, post, profile, hpid, hfp, hpr, hs, hshape⟩ :=
        hide_post_success h
      injection hpid with hpid
      subst hshape
      refine ⟨suppressPostFields post (getOrCreateReason db.reasons
          (reason.getD "default_reason")).1.suppressed_code db.now profile.id,
        List.mem_map.mpr ⟨post, findPost_mem hfp, by simp⟩, ?_, rfl⟩
      have := findPost_id hfp
      simp only [suppressPostFields]
      omega
    exact suppressed_post_forall_of_nodup _ i
      (applyOps_idsWellFormed ops db1 hwf1).1
      (applyOps_keeps_suppressed_post ops db1 i hsupp)
  · intro db1 h
    have hdb1 : applyOp db (Op.hideComment user (some i) reason) = db1 := by
      simp only [applyOp]; rw [h]
    have hwf1 : idsWellFormed db1 := hdb1 ▸ applyOp_idsWellFormed db _ hwf
    have hsupp : ∃ c ∈ db1.comments, c.id = i ∧ c.is_suppressed = true := by
      obtain ⟨cid, comment, profile, hcid, hfc, hpr, hs, hshape⟩ :=
        hide_comment_success h
      injection hcid with hcid
      subst hshape
      refine ⟨suppressCommentFields comment (getOrCreateReason db.reasons
          (reason.getD "default_reason")).1.suppressed_code db.now profile.id,
        List.mem_map.mpr ⟨comment, findComment_mem hfc, by simp⟩, ?_, rfl⟩
      have := findComment_id hfc
      simp only [suppressCommentFields]
      omega
    exact suppressed_comment_forall_of_nodup _ i
      (applyOps_idsWellFormed ops db1 hwf1).2.2.1
      (applyOps_keeps_suppressed_comment ops db1 i hsupp)

/-- The `SuppressionReason` catalog holds at most one row per code
(`suppressed_code` is a unique column). -/
def reasonCodesNodup (db : DB) : Prop :=
  (db.reasons.map SuppressionReason.suppressed_code).Nodup

instance (db : DB) : Decidable (reasonCodesNodup db) := by
  unfold reasonCodesNodup; infer_instance

theorem getOrCreateReason_nodup (rs : List SuppressionReason) (code : String)
    (h : (rs.map SuppressionReason.suppressed_code).Nodup) :
    ((getOrCreateReason rs code).2.map
      SuppressionReason.suppressed_code).Nodup := by
  unfold getOrCreateReason
  cases hf : rs.find? (fun r => r.suppressed_code == code) with
  | some r => exact h
  | none =>
    rw [List.find?_eq_none] at hf
    simp only [List.map_append, List.nodup_append]
    refine ⟨h, List.nodup_singleton _, ?_⟩
    intro a ha hb
    simp only [List.map_cons, List.map_nil, List.mem_singleton] at hb
    subst hb
    obtain ⟨r, hr, hrc⟩ := List.mem_map.mp ha
    exact hf r hr (by simp [hrc])

theorem getOrCreateReason_of_mem (rs : List SuppressionReason) (code : String)
    (h : ∃ r ∈ rs, r.suppressed_code = code) :
    (getOrCreateReason rs code).2 = rs := by
  unfold getOrCreateReason
  cases hf : rs.find? (fun r => r.suppressed_code == code) with
  | some r => rfl
  | none =>
    rw [List.find?_eq_none] at hf
    obtain ⟨r, hr, hrc⟩ := h
    exact absurd (by simp [hrc]) (hf r hr)

theorem filter_code_singleton (l : List SuppressionReason) (c : String)
    (hn : (l.map SuppressionReason.suppressed_code).Nodup)
    (x : SuppressionReason) (hx : x ∈ l) (hfx : x.suppressed_code = c) :
    l.filter (fun y => y.suppressed_code == c) = [x] := by
  induction l with
  | nil => cases hx
  | cons a as ih =>
    simp only [List.map_cons, List.nodup_cons] at hn
    obtain ⟨hna, hnas⟩ := hn
    rcases List.mem_cons.mp hx with rfl | hx
    · rw [List.filter_cons, if_pos (by simp [hfx])]
      have hnil : as.filter (fun y => y.suppressed_code == c) = [] := by
        rw [List.filter_eq_nil_iff]
        intro y hy
        simp only [beq_iff_eq]
        intro hyc
        exact hna (by rw [hfx, ← hyc]; exact List.mem_map_of_mem _ hy)
      rw [hnil]
    · have hac : (a.suppressed_code == c) = false := by
        simp only [beq_eq_false_iff_ne, ne_eq]
        intro hc
        exact hna (by rw [hc, ← hfx]; exact List.mem_map_of_mem _ hx)
      rw [List.filter_cons, if_neg (by simp [hac])]
      exact ih hnas hx

theorem applyOp_reasons (db : DB) (op : Op) :
    (applyOp db op).reasons = db.reasons ∨
    ∃ code, (applyOp db op).reasons = (getOrCreateReason db.reasons code).2 := by
  cases op with
  | createUser a b c d =>
    exact Or.inl (by simp only [applyOp]; exact (create_user_content_invariant db a b c d).2.2.2.2)
  | createPost u t c =>
    rcases create_post_state_shape db u t c with heq |
      ⟨post, _, _, _, _, _, _, _, _, _, hre⟩
    · exact Or.inl (by simp only [applyOp, heq])
    · exact Or.inl (by simp only [applyOp]; exact hre)
  | createComment u pid c =>
    rcases create_comment_state_shape db u pid c with heq |
      ⟨comment, _, _, _, _, _, _, _, _, _, hre⟩
    · exact Or.inl (by simp only [applyOp, heq])
    · exact Or.inl (by simp only [applyOp]; exact hre)
  | hidePost u pid r =>
    rcases hide_post_state_shape db u pid r with heq |
      ⟨post, profile, _, _, _, _, _, hre⟩
    · exact Or.inl (by simp only [applyOp, heq])
    · exact Or.inr ⟨r.getD "default_reason", by simp only [applyOp]; exact hre⟩
  | hideComment u cid r =>
    rcases hide_comment_state_shape db u cid r with heq |
      ⟨comment, profile, _, _, _, _, _, hre⟩
    · exact Or.inl (by simp only [applyOp, heq])
    · exact Or.inr ⟨r.getD "default_reason", by simp only [applyOp]; exact hre⟩
  | readOnly => exact Or.inl rfl

theorem applyOp_reasonCodesNodup (db : DB) (op : Op)
    (h : reasonCodesNodup db) : reasonCodesNodup (applyOp db op) := by
  rcases applyOp_reasons db op with he | ⟨code, he⟩
  · unfold reasonCodesNodup
    rw [he]
    exact h
  · unfold reasonCodesNodup
    rw [he]
    exact getOrCreateReason_nodup db.reasons code h

/-- C8: reason dedup.  Starting from a catalog with unique codes, two
successful suppressions with the same reason code (here a post and then
a comment) leave exactly one `SuppressionReason` row with that code, and
both suppressed items reference that code; moreover every further
exposed operation keeps the catalog free of duplicate codes. -/
theorem suppression_reason_dedup (db : DB) (u1 u2 : AuthUser) (i1 i2 : Nat)
    (code : String) (db1 db2 : DB)
    (hnodup : reasonCodesNodup db)
    (h1 : hide_post db u1 (some i1) (some code) = (200, db1))
    (h2 : hide_comment db1 u2 (some i2) (some code) = (200, db2)) :
    (db2.reasons.filter (fun r => r.suppressed_code == code)).length = 1 ∧
    (∀ p ∈ db2.posts, p.id = i1 → p.suppressed_reason = some code) ∧
    (∀ c ∈ db2.comments, c.id = i2 → c.suppressed_reason = some code) ∧
    (∀ op : Op, reasonCodesNodup (applyOp db2 op)) := by
  obtain ⟨pid, post, profile, hpid, hfp, hpr, hs, hshape1⟩ :=
    hide_post_success h1
  injection hpid with hpid
  subst hshape1
  obtain ⟨cid, comment, profile2, hcid, hfc, hpr2, hs2, hshape2⟩ :=
    hide_comment_success h2
  injection hcid with hcid
  subst hshape2
  have hmem1 : ∃ r ∈ (getOrCreateReason db.reasons code).2,
      r.suppressed_code = code :=
    ⟨_, getOrCreateReason_fst_mem _ _, getOrCreateReason_code _ _⟩
  have hnodup1 : ((getOrCreateReason db.reasons code).2.map
        SuppressionReason.suppressed_code).Nodup :=
    getOrCreateReason_nodup _ _ hnodup
  refine ⟨?_, ?_, ?_, ?_⟩
  · dsimp only
    simp only [Option.getD_some]
    rw [getOrCreateReason_of_mem _ _ hmem1]
    rw [filter_code_singleton _ code hnodup1 _
      (getOrCreateReason_fst_mem _ _) (getOrCreateReason_code _ _)]
    rfl
  · intro p hp hpi1
    dsimp only at hp
    simp only [List.mem_map] at hp
    obtain ⟨q, hq, hfq⟩ := hp
    by_cases hcase : q.id = post.id
    · subst hfq
      simp [hcase, suppressPostFields, getOrCreateReason_code,
        Option.getD_some]
    · exfalso
      subst hfq
      rw [suppressPostMap_id] at hpi1
      have hpost : post.id = pid := findPost_id hfp
      omega
  · intro c hc hci2
    dsimp only at hc
    simp only [List.mem_map] at hc
    obtain ⟨q, hq, hfq⟩ := hc
    by_cases hcase : q.id = comment.id
    · subst hfq
      simp [hcase, suppressCommentFields, getOrCreateReason_code,
        Option.getD_some]
    · exfalso
      subst hfq
      rw [suppressCommentMap_id] at hci2
      have hcomment : comment.id = cid := findComment_id hfc
      omega
  · intro op
    apply applyOp_reasonCodesNodup
    unfold reasonCodesNodup
    dsimp only
    simp only [Option.getD_some]
    rw [getOrCreateReason_of_mem _ _ hmem1]
    exact hnodup1

/-- The model invariant of C9 for a post: `is_suppressed == false` iff
the three nullable suppression fields are all unset. -/
def postConsistent (p : Post) : Prop :=
  p.is_suppressed = false ↔
    (p.suppressed_reason = none ∧ p.suppressed_datetime = none ∧
     p.suppressed_by = none)

def commentConsistent (c : Comment) : Prop :=
  c.is_suppressed = false ↔
    (c.suppressed_reason = none ∧ c.suppressed_datetime = none ∧
     c.suppressed_by = none)

def dbConsistent (db : DB) : Prop :=
  (∀ p ∈ db.posts, postConsistent p) ∧
  (∀ c ∈ db.comments, commentConsistent c)

instance (p : Post) : Decidable (postConsistent p) := by
  unfold postConsistent; infer_instance

instance (c : Comment) : Decidable (commentConsistent c) := by
  unfold commentConsistent; infer_instance

instance (db : DB) : Decidable (dbConsistent db) := by
  unfold dbConsistent; infer_instance

theorem suppressPostFields_consistent (post : Post) (code : String)
    (now profId : Nat) :
    postConsistent (suppressPostFields post code now profId) := by
  simp [postConsistent, suppressPostFields]

theorem suppressCommentFields_consistent (comment : Comment) (code : String)
    (now profId : Nat) :
    commentConsistent (suppressCommentFields comment code now profId) := by
  simp [commentConsistent, suppressCommentFields]

theorem applyOp_dbConsistent (db : DB) (op : Op) (h : dbConsistent db) :
    dbConsistent (applyOp db op) := by
  obtain ⟨hp, hc⟩ := h
  cases op with
  | createUser a b c d =>
    obtain ⟨h1, h2, _, _, _⟩ := create_user_content_invariant db a b c d
    exact ⟨by simp only [applyOp]; rw [h1]; exact hp,
           by simp only [applyOp]; rw [h2]; exact hc⟩
  | createPost u t c =>
    rcases create_post_state_shape db u t c with heq |
      ⟨post, _, hsup, hrea, hdt, hby, hposts, _, hcoms, _, _⟩
    · exact ⟨by simp only [applyOp, heq]; exact hp,
             by simp only [applyOp, heq]; exact hc⟩
    · refine ⟨?_, by simp only [applyOp]; rw [hcoms]; exact hc⟩
      simp only [applyOp]
      rw [hposts]
      intro q hq
      rcases List.mem_append.mp hq with hq | hq
      · exact hp q hq
      · simp only [List.mem_singleton] at hq
        subst hq
        simp [postConsistent, hsup, hrea, hdt, hby]
  | createComment u pid c =>
    rcases create_comment_state_shape db u pid c with heq |
      ⟨comment, _, hsup, hrea, hdt, hby, hcoms, _, hposts, _, _⟩
    · exact ⟨by simp only [applyOp, heq]; exact hp,
             by simp only [applyOp, heq]; exact hc⟩
    · refine ⟨by simp only [applyOp]; rw [hposts]; exact hp, ?_⟩
      simp only [applyOp]
      rw [hcoms]
      intro q hq
      rcases List.mem_append.mp hq with hq | hq
      · exact hc q hq
      · simp only [List.mem_singleton] at hq
        subst hq
        simp [commentConsistent, hsup, hrea, hdt, hby]
  | hidePost u pid r =>
    rcases hide_post_state_shape db u pid r with heq |
      ⟨post, profile, _, hposts, hcoms, _, _, _⟩
    · exact ⟨by simp only [applyOp, heq]; exact hp,
             by simp only [applyOp, heq]; exact hc⟩
    · refine ⟨?_, by simp only [applyOp]; rw [hcoms]; exact hc⟩
      simp only [applyOp]
      rw [hposts]
      intro q hq
      obtain ⟨q0, hq0, hfq⟩ := List.mem_map.mp hq
      subst hfq
      by_cases hcase : q0.id = post.id
      · simp only [hcase, beq_self_eq_true, if_true]
        exact suppressPostFields_consistent _ _ _ _
      · rw [if_neg (by simp [hcase])]
        exact hp q0 hq0
  | hideComment u cid r =>
    rcases hide_comment_state_shape db u cid r with heq |
      ⟨comment, profile, _, hcoms, hposts, _, _, _⟩
    · exact ⟨by simp only [applyOp, heq]; exact hp,
             by simp only [applyOp, heq]; exact hc⟩
    · refine ⟨by simp only [applyOp]; rw [hposts]; exact hp, ?_⟩
      simp only [applyOp]
      rw [hcoms]
      intro q hq
      obtain ⟨q0, hq0, hfq⟩ := List.mem_map.mp hq
      subst hfq
      by_cases hcase : q0.id = comment.id
      · simp only [hcase, beq_self_eq_true, if_true]
        exact suppressCommentFields_consistent _ _ _ _
      · rw [if_neg (by simp [hcase])]
        exact hc q0 hq0
  | readOnly => exact ⟨hp, hc⟩

/-- C9: the invariant "`is_suppressed == false` iff `suppressed_reason`,
`suppressed_datetime` and `suppressed_by` are all unset" is preserved on
every post and comment by every exposed operation; newly created posts
and comments start with `is_suppressed = false` and the three fields
unset, and a successful suppression sets `is_suppressed = true` together
with all three fields. -/
theorem suppression_fields_consistency (db : DB) (hdb : dbConsistent db) :
    (∀ op : Op, dbConsistent (applyOp db op)) ∧
    (∀ user title content pid db',
       create_post db user title content = ((201, some pid), db') →
       ∃ p ∈ db'.posts, p.id = pid ∧ p.is_suppressed = false ∧
         p.suppressed_reason = none ∧ p.suppressed_datetime = none ∧
         p.suppressed_by = none) ∧
    (∀ user post_id content cid db',
       create_comment db user post_id content = ((201, some cid), db') →
       ∃ c ∈ db'.comments, c.id = cid ∧ c.is_suppressed = false ∧
         c.suppressed_reason = none ∧ c.suppressed_datetime = none ∧
         c.suppressed_by = none) ∧
    (∀ user post_id reason db',
       hide_post db user post_id reason = (200, db') →
       ∃ pid, post_id = some pid ∧ ∃ p ∈ db'.posts, p.id = pid ∧
         p.is_suppressed = true ∧ p.suppressed_reason.isSome = true ∧
         p.suppressed_datetime.isSome = true ∧
         p.suppressed_by.isSome = true) ∧
    (∀ user comment_id reason db',
       hide_comment db user comment_id reason = (200, db') →
       ∃ cid, comment_id = some cid ∧ ∃ c ∈ db'.comments, c.id = cid ∧
         c.is_suppressed = true ∧ c.suppressed_reason.isSome = true ∧
         c.suppressed_datetime.isSome = true ∧
         c.suppressed_by.isSome = true) := by
  refine ⟨fun op => applyOp_dbConsistent db op hdb, ?_, ?_, ?_, ?_⟩
  · intro user title content pid db' h
    unfold create_post at h
    split at h
    · simp at h
    · simp only [Prod.mk.injEq, Option.some.injEq] at h
      obtain ⟨⟨_, hpid⟩, hdbeq⟩ := h
      subst hdbeq
      exact ⟨_, List.mem_append_right _ (List.mem_singleton_self _),
        hpid, rfl, rfl, rfl, rfl⟩
  · intro user post_id content cid db' h
    unfold create_comment at h
    split at h
    · simp at h
    · split at h
      · simp at h
      · simp only [Prod.mk.injEq, Option.some.injEq] at h
        obtain ⟨⟨_, hcid⟩, hdbeq⟩ := h
        subst hdbeq
        exact ⟨_, List.mem_append_right _ (List.mem_singleton_self _),
          hcid, rfl, rfl, rfl, rfl⟩
  · intro user post_id reason db' h
    obtain ⟨pid, post, profile, hpid, hfp, hpr, hs, hshape⟩ :=
      hide_post_success h
    subst hshape
    refine ⟨pid, hpid, suppressPostFields post (getOrCreateReason db.reasons
        (reason.getD "default_reason")).1.suppressed_code db.now profile.id,
      List.mem_map.mpr ⟨post, findPost_mem hfp, by simp⟩,
      (by simpa [suppressPostFields] using findPost_id hfp),
      rfl, rfl, rfl, rfl⟩
  · intro user comment_id reason db' h
    obtain ⟨cid, comment, profile, hcid, hfc, hpr, hs, hshape⟩ :=
      hide_comment_success h
    subst hshape
    refine ⟨cid, hcid, suppressCommentFields comment
        (getOrCreateReason db.reasons
          (reason.getD "default_reason")).1.suppressed_code db.now profile.id,
      List.mem_map.mpr ⟨comment, findComment_mem hfc, by simp⟩,
      (by simpa [suppressCommentFields] using findComment_id hfc),
      rfl, rfl, rfl, rfl⟩

theorem findProfile_none_not_mine {db : DB} {user : AuthUser}
    (h : findProfile db user = none) :
    ∀ pr ∈ db.profiles, pr.user.id ≠ user.id := by
  intro pr hpr
  have := List.find?_eq_none.mp h pr hpr
  simpa using this

theorem getOrCreateUserType_fresh (types : List UserType) (name : String)
    (d : Bool) (h : types.find? (fun t => t.name == name) = none) :
    (getOrCreateUserType types name d).1 = ⟨name, d⟩ ∧
    (getOrCreateUserType types name d).2 = types ++ [⟨name, d⟩] := by
  unfold getOrCreateUserType
  rw [h]
  exact ⟨rfl, rfl⟩

/-- Staff account with no app profile (e.g. created through the
framework's own user machinery), in a store where both role rows already
exist — the `"admin"` row with `can_moderate = False`, exactly as
`create_user` leaves it when a registration creates that row without
defaults. -/
def bobAuth : AuthUser := ⟨2, "bob", true⟩

def lazyAliceProfile : Profile := ⟨1, ⟨3, "alice", false⟩, ⟨"serf", false⟩⟩

def lazyPost : Post :=
  { id := 1, author := lazyAliceProfile, title := "t", content := "c",
    date := 0 }

def dbLazy : DB :=
  { authUsers := [⟨3, "alice", false⟩, bobAuth],
    userTypes := [⟨"admin", false⟩, ⟨"serf", false⟩],
    profiles := [lazyAliceProfile], posts := [lazyPost], comments := [],
    reasons := [], nextAuthId := 4, nextProfileId := 2, nextPostId := 2,
    nextCommentId := 1, now := 9 }

/-- C10 counterexample: the claim's "assigns the 'admin' user type with
can_moderate true for staff accounts" fails when a `UserType` row named
"admin" already exists with `can_moderate = False` (as `create_user`
creates it): `get_or_create` returns the stored row and ignores the
defaults, so the staff account's lazily created profile gets the "admin"
role with `can_moderate = false`. -/
theorem create_comment_lazy_admin_counterexample :
    bobAuth.is_staff = true ∧
    findProfile dbLazy bobAuth = none ∧
    (create_comment dbLazy bobAuth (some 1) (some "hi")).1.1 = 201 ∧
    ∃ pr ∈ (create_comment dbLazy bobAuth (some 1) (some "hi")).2.profiles,
      pr.user.id = bobAuth.id ∧ pr.user_type.name = "admin" ∧
      pr.user_type.can_moderate = false := by
  decide

/-- C10 amended: for a staff account with no profile, in a store where
neither role row exists yet (so the `get_or_create` defaults apply),
`create_post` lazily creates the profile with the `"serf"` role carrying
`can_moderate = false` even though the account is staff, while
`create_comment` lazily creates it with the `"admin"` role carrying
`can_moderate = true` — the role of the lazily created profile depends
on which content-creating operation runs first.  (When a role row of the
same name already exists it is reused with its stored flag; see the
counterexample.) -/
theorem lazy_profile_role_divergence (db : DB) (user : AuthUser)
    (hstaff : user.is_staff = true)
    (hnoprof : findProfile db user = none)
    (hserf : db.userTypes.find? (fun t => t.name == "serf") = none)
    (hadmin : db.userTypes.find? (fun t => t.name == "admin") = none) :
    (∀ title content st idp db',
       create_post db user title content = ((st, idp), db') →
       ∀ pr ∈ db'.profiles, pr.user.id = user.id →
         pr.user_type = ⟨"serf", false⟩) ∧
    (∀ post_id content st idc db',
       create_comment db user post_id content = ((st, idc), db') →
       ∀ pr ∈ db'.profiles, pr.user.id = user.id →
         pr.user_type = ⟨"admin", true⟩) := by
  constructor
  · intro title content st idp db' h
    unfold create_post at h
    split at h
    · simp only [Prod.mk.injEq] at h
      obtain ⟨_, hdbeq⟩ := h
      subst hdbeq
      intro pr hpr hpru
      exact absurd hpru (findProfile_none_not_mine hnoprof pr hpr)
    · rw [hnoprof] at h
      simp only [Prod.mk.injEq] at h
      obtain ⟨_, hdbeq⟩ := h
      subst hdbeq
      intro pr hpr hpru
      dsimp only at hpr
      rcases List.mem_append.mp hpr with hpr | hpr
      · exact absurd hpru (findProfile_none_not_mine hnoprof pr hpr)
      · simp only [List.mem_singleton] at hpr
        subst hpr
        exact (getOrCreateUserType_fresh db.userTypes "serf" false hserf).1
  · intro post_id content st idc db' h
    unfold create_comment at h
    split at h
    · simp only [Prod.mk.injEq] at h
      obtain ⟨_, hdbeq⟩ := h
      subst hdbeq
      intro pr hpr hpru
      exact absurd hpru (findProfile_none_not_mine hnoprof pr hpr)
    · split at h
      · simp only [Prod.mk.injEq] at h
        obtain ⟨_, hdbeq⟩ := h
        subst hdbeq
        intro pr hpr hpru
        exact absurd hpru (findProfile_none_not_mine hnoprof pr hpr)
      · rw [hnoprof, hstaff] at h
        simp only [if_true] at h
        simp only [Prod.mk.injEq] at h
        obtain ⟨_, hdbeq⟩ := h
        subst hdbeq
        intro pr hpr hpru
        dsimp only at hpr
        rcases List.mem_append.mp hpr with hpr | hpr
        · exact absurd hpru (findProfile_none_not_mine hnoprof pr hpr)
        · simp only [List.mem_singleton] at hpr
          subst hpr
          exact (getOrCreateUserType_fresh db.userTypes "admin" true hadmin).1

/-- Concrete store used to witness the theorems: staff moderator carol,
serf alice with one post and one comment. -/
def carolW : AuthUser := ⟨1, "carol", true⟩

def aliceW : AuthUser := ⟨2, "alice", false⟩

def carolProfileW : Profile := ⟨1, carolW, ⟨"admin", true⟩⟩

def aliceProfileW : Profile := ⟨2, aliceW, ⟨"serf", false⟩⟩

def post1W : Post :=
  { id := 1, author := aliceProfileW, title := "hi", content := "hello",
    date := 5 }

def comment1W : Comment :=
  { id := 1, postId := 1, author := aliceProfileW, content := "yo",
    date := 6 }

def dbW : DB :=
  { authUsers := [carolW, aliceW],
    userTypes := [⟨"admin", true⟩, ⟨"serf", false⟩],
    profiles := [carolProfileW, aliceProfileW],
    posts := [post1W], comments := [comment1W], reasons := [],
    nextAuthId := 3, nextProfileId := 3, nextPostId := 2, nextCommentId := 2,
    now := 10 }

theorem post_detail_spec_witness :
    ∃ data, post_detail dbW aliceW 1 = (200, some data) ∧ data.id = 1 := by
  obtain ⟨data, hdata, hid, -, -, -, -⟩ :=
    (post_detail_spec dbW aliceW aliceProfileW 1 post1W rfl rfl).2 (Or.inl rfl)
  exact ⟨data, hdata, hid⟩

theorem feed_spec_witness :
    ∃ rows, feed dbW carolW = (200, some rows) ∧
      rows.Perm (dbW.posts.map feedEntryOf) :=
  (feed_spec dbW carolW carolProfileW rfl).2.1 rfl

theorem hide_success_sets_all_suppression_fields_witness :
    ∃ p ∈ (hide_post dbW carolW (some 1) (some "spam")).2.posts,
      p.id = 1 ∧ p.is_suppressed = true ∧
      p.suppressed_reason = some "spam" := by
  obtain ⟨pid, profile, hpid, hpr, hre, p, hp, hid, hsup, hreason, -, -⟩ :=
    (hide_success_sets_all_suppression_fields dbW carolW (some 1) (some 1)
      (some "spam")).1 _ rfl
  injection hpid with hpid
  refine ⟨p, hp, ?_, hsup, hreason⟩
  omega

theorem hide_authorization_is_staff_only_witness :
    hide_post dbW aliceW (some 1) none = (401, dbW) ∧
    (hide_post dbW carolW (some 1) none).1 ≠ 401 :=
  ⟨((hide_authorization_is_staff_only dbW aliceW (some 1) (some 1) none).1
      rfl).1,
   ((hide_authorization_is_staff_only dbW carolW (some 1) (some 1) none).2
      rfl).1⟩

theorem suppression_is_one_way_witness :
    ((applyOps (hide_post dbW carolW (some 1) (some "x")).2
        [Op.createPost aliceW (some "t") (some "c"), Op.readOnly]).posts.filter
      (fun p => p.id == 1)).all (fun p => p.is_suppressed) = true := by
  have h := (suppression_is_one_way dbW carolW 1 (some "x")
    [Op.createPost aliceW (some "t") (some "c"), Op.readOnly]
    (by decide)).1 _ rfl
  rw [List.all_eq_true]
  intro p hp
  rw [List.mem_filter] at hp
  exact h p hp.1 (by simpa using hp.2)

theorem suppression_reason_dedup_witness :
    ((hide_comment (hide_post dbW carolW (some 1) (some "spam")).2 carolW
        (some 1) (some "spam")).2.reasons.filter
      (fun r => r.suppressed_code == "spam")).length = 1 :=
  (suppression_reason_dedup dbW carolW carolW 1 1 "spam" _ _
    (by decide) rfl rfl).1

theorem suppression_fields_consistency_witness :
    dbConsistent (applyOp dbW (Op.hidePost carolW (some 1) none)) :=
  (suppression_fields_consistency dbW (by decide)).1 _

/-- Empty store with a staff account and no role rows, used to witness
the amended C10 statement. -/
def dbFresh : DB :=
  { authUsers := [bobAuth], userTypes := [], profiles := [], posts := [],
    comments := [], reasons := [], nextAuthId := 3, nextProfileId := 1,
    nextPostId := 1, nextCommentId := 1, now := 0 }

theorem lazy_profile_role_divergence_witness :
    ∃ pr ∈ (create_post dbFresh bobAuth (some "t") (some "c")).2.profiles,
      pr.user.id = bobAuth.id ∧ pr.user_type = ⟨"serf", false⟩ := by
  have h := (lazy_profile_role_divergence dbFresh bobAuth rfl rfl rfl rfl).1
    (some "t") (some "c") 201 (some 1)
    (create_post dbFresh bobAuth (some "t") (some "c")).2 rfl
  refine ⟨⟨1, bobAuth, ⟨"serf", false⟩⟩, by decide, rfl, ?_⟩
  exact h _ (by decide) rfl
